import Mathlib

/-!
Verification development for the DMU-to-docx converter
(`Scripts/GeMS_DMUtoDocx_AGP2.py`).  The script's string handling and the
record-processing loop are embedded shallowly: Python strings become
`List Char`, `str.find`'s `-1` result is kept as an `Int`, Python slices
are modelled with their negative-index semantics, and the script-level
loop becomes a pure fold whose result is an `Except` value so that the
exceptions Python could raise (`NameError`, `IndexError`, `StopIteration`)
are explicit values.
-/

namespace GeMS

/-! ## Python string primitives -/

/-- The pattern `pat` occurs in `s` starting at character index `i`. -/
def occursAt (pat s : List Char) (i : Nat) : Bool :=
  pat.isPrefixOf (s.drop i)

/-- Scan indices `j, j+1, ...` (at most `fuel` of them) for the first
occurrence of `pat`. -/
def findFromAux (pat s : List Char) : Nat → Nat → Option Nat
  | _, 0 => none
  | j, fuel + 1 => if occursAt pat s j then some j else findFromAux pat s (j + 1) fuel

/-- Least index `j ≥ i` at which `pat` occurs in `s` (Python
`s.find(pat, i)` before its `-1` encoding). -/
def findFrom (pat s : List Char) (i : Nat) : Option Nat :=
  findFromAux pat s i (s.length + 1 - i)

/-- Python `pat in s` substring test. -/
def containsSub (pat s : List Char) : Bool :=
  (findFrom pat s 0).isSome

/-- Python `s.find(pat, i)`: index of the first occurrence at or after
`i`, or `-1` when there is none. -/
def pyFind (pat s : List Char) (i : Nat) : Int :=
  match findFrom pat s i with
  | some j => (j : Int)
  | none => -1

/-- Python slice `s[a:b]`: negative bounds count from the end, bounds are
clamped to `[0, len]`, and an empty slice results when the normalized
start is not below the normalized stop. -/
def pySlice (s : List Char) (a b : Int) : List Char :=
  let n : Int := (s.length : Int)
  let a2 : Int := if a < 0 then max (n + a) 0 else min a n
  let b2 : Int := if b < 0 then max (n + b) 0 else min b n
  (s.drop a2.toNat).take (b2 - a2).toNat

/-- All indices at which `pat` occurs in `s`, ascending.  For the tag
markers of this script no pattern overlaps itself (each contains a single
`<`, only at its head), so this agrees with Python `re.finditer` on the
escaped literal pattern. -/
def allOccurrences (pat s : List Char) : List Nat :=
  (List.range (s.length + 1)).filter (fun j => occursAt pat s j)

/-- Fuelled worker for Python `s.split(pat)` with a non-empty separator:
cut at the leftmost occurrence and continue on the remainder. -/
def splitOnSubFuel (pat : List Char) : Nat → List Char → List (List Char)
  | 0, s => [s]
  | fuel + 1, s =>
    match findFrom pat s 0 with
    | none => [s]
    | some j => s.take j :: splitOnSubFuel pat fuel (s.drop (j + pat.length))

/-- Python `s.split(pat)` for a non-empty `pat` (the script only splits on
`"<br>"` and `"<p>"`). -/
def splitOnSub (pat s : List Char) : List (List Char) :=
  splitOnSubFuel pat (s.length + 1) s

/-- Python `s.replace(pat, '')`: both it and `split` consume the same
non-overlapping left-to-right occurrences, so deleting `pat` is
concatenating the split pieces. -/
def replaceSub (pat s : List Char) : List Char :=
  (splitOnSub pat s).flatten

/-- Characters recognized as line boundaries by Python `str.splitlines`. -/
def isLineBreakChar (c : Char) : Bool :=
  c = '\n' || c = '\r' || c = '\x0b' || c = '\x0c' ||
  c = '\x1c' || c = '\x1d' || c = '\x1e' || c = '\x85' ||
  c = '\u2028' || c = '\u2029'

/-- Fuelled worker for Python `str.splitlines`: an empty string yields no
lines, a trailing boundary yields no trailing empty line, and `\r\n`
counts as a single boundary. -/
def splitlinesFuel : Nat → List Char → List (List Char)
  | _, [] => []
  | 0, s => [s]
  | fuel + 1, s =>
    let line := s.takeWhile (fun c => !isLineBreakChar c)
    match s.drop line.length with
    | [] => [line]
    | '\r' :: '\n' :: rest => line :: splitlinesFuel fuel rest
    | _ :: rest => line :: splitlinesFuel fuel rest

/-- Python `s.splitlines()`. -/
def splitlines (s : List Char) : List (List Char) :=
  splitlinesFuel (s.length + 1) s

/-- Join pieces with a separator (used to state that `splitOnSub` is a
genuine splitting of its input). -/
def joinWith (sep : List Char) : List (List Char) → List Char
  | [] => []
  | [x] => x
  | x :: y :: xs => x ++ sep ++ joinWith sep (y :: xs)

/-- Whitespace characters of Python `str.split()` that can appear in the
(ASCII plus Latin-1) table fields this script reads. -/
def isPySpace (c : Char) : Bool :=
  c = ' ' || c = '\t' || c = '\n' || c = '\r' || c = '\x0b' || c = '\x0c' ||
  c = '\x1c' || c = '\x1d' || c = '\x1e' || c = '\x1f' || c = '\x85' || c = '\xa0'

/-! ## Tag catalog (source lines 47-59)

`tags = ['b','p','i','g','ul','sup','sub']`, each wrapped as `<tag>` and
`</tag>`, then the FGDCGeoAge span pair is appended. -/

def bTag : List Char := ['<', 'b', '>']

def pTag : List Char := ['<', 'p', '>']

def iTag : List Char := ['<', 'i', '>']

def gTag : List Char := ['<', 'g', '>']

def ulTag : List Char := ['<', 'u', 'l', '>']

def supTag : List Char := ['<', 's', 'u', 'p', '>']

def subTag : List Char := ['<', 's', 'u', 'b', '>']

def spanTail : List Char := "pan style=\"font-family: FGDCGeoAge\">".data

def spanStart : List Char := '<' :: 's' :: spanTail

def ebTag : List Char := ['<', '/', 'b', '>']

def startTags : List (List Char) :=
  [bTag, pTag, iTag, gTag, ulTag, supTag, subTag, spanStart]

def endTags : List (List Char) :=
  [ebTag, "</p>".data, "</i>".data, "</g>".data, "</ul>".data,
   "</sup>".data, "</sub>".data, "</span>".data]

/-- `endTags[startTags.index(st)]` (source lines 93 and 129); `st` is
always drawn from `startTags`, so the `none` fallback is never reached. -/
def endTagFor (st : List Char) : List Char :=
  match (startTags.zip endTags).find? (fun p => p.1 == st) with
  | some p => p.2
  | none => []

/-! ## Runs and `add_formatting` (source lines 80-145) -/

/-- Character-style effect of a docx run as this script produces them:
`add_run(text)` gives the default style (`Plain` here), the tag dispatch
sets `bold`/`italic`/`superscript`/`subscript`, and the two named
character styles of the USGS template get their own variants. -/
inductive Style where
  | Plain
  | Bold
  | Italic
  | Superscript
  | Subscript
  | UnitLabelFont
  | NameAge
deriving DecidableEq, Repr

structure Run where
  text : List Char
  style : Style
deriving DecidableEq, Repr

/-- One entry `[begin, end, st]` of the script's `find_pos` list: `b` is
the match start of the opening marker, `e` is `ptext.find(et, begin)`
(hence `-1` when the closing marker is missing), `st` the opening
marker. -/
structure FindPos where
  b : Nat
  e : Int
  st : List Char
deriving DecidableEq, Repr

/-- Insert keeping earlier equal keys first (Python `list.sort` is
stable; here two entries never share a `begin` because no two catalog
markers can match at the same index). -/
def insertByB (x : FindPos) : List FindPos → List FindPos
  | [] => [x]
  | y :: ys => if y.b ≤ x.b then y :: insertByB x ys else x :: y :: ys

/-- `find_pos.sort()` (source line 99). -/
def sortByB (l : List FindPos) : List FindPos :=
  l.foldl (fun acc x => insertByB x acc) []

/-- Runs contributed by one `find_pos` entry (loop body, source lines
107-143): the tagged slice styled per tag — structural tags `<p>`, `<g>`,
`<ul>` match no branch and contribute nothing — then the untagged slice
up to `end_n`, emitted only when non-empty. -/
def itemRuns (ptext : List Char) (item : FindPos) (end_n : Int) : List Run :=
  let start : Int := (item.b : Int) + (item.st.length : Int)
  let tagged := pySlice ptext start item.e
  let taggedRuns : List Run :=
    if item.st == bTag then [⟨tagged, Style.Bold⟩]
    else if item.st == iTag then [⟨tagged, Style.Italic⟩]
    else if item.st == supTag then [⟨tagged, Style.Superscript⟩]
    else if item.st == subTag then [⟨tagged, Style.Subscript⟩]
    else if item.st == spanStart then [⟨tagged, Style.UnitLabelFont⟩]
    else []
  let et := endTagFor item.st
  let start_n : Int := item.e + (et.length : Int)
  let untagged := pySlice ptext start_n end_n
  let untaggedRuns : List Run := if untagged.isEmpty then [] else [⟨untagged, Style.Plain⟩]
  taggedRuns ++ untaggedRuns

/-- The enumerated loop over the sorted `find_pos`: `end_n` is the next
entry's `begin`, or `len(ptext)` for the last entry. -/
def emitRuns (ptext : List Char) : List FindPos → List Run
  | [] => []
  | item :: rest =>
    let end_n : Int :=
      match rest with
      | [] => (ptext.length : Int)
      | next :: _ => (next.b : Int)
    itemRuns ptext item end_n ++ emitRuns ptext rest

/-- `add_formatting` (source lines 80-145) as a function from the
paragraph text to the list of runs appended to the docx paragraph. -/
def add_formatting (ptext : List Char) : List Run :=
  let res := startTags.filter (fun n => containsSub n ptext)
  if res.isEmpty then [⟨ptext, Style.Plain⟩]
  else
    let find_pos :=
      res.flatMap (fun st =>
        (allOccurrences st ptext).map (fun bg =>
          FindPos.mk bg (pyFind (endTagFor st) ptext bg) st))
    match sortByB find_pos with
    | [] => []
    | first :: rest =>
      let before := pySlice ptext 0 (first.b : Int)
      (if before.isEmpty then [] else [⟨before, Style.Plain⟩])
        ++ emitRuns ptext (first :: rest)

/-- Concatenation of the emitted runs' text. -/
def concatRuns : List Run → List Char
  | [] => []
  | r :: rs => r.text ++ concatRuns rs

/-! ## Field predicates (source lines 61-78)

Optional table fields are `Option (List Char)`: `none` is Python `None`. -/

/-- `isNotBlank` (source lines 61-65): false only for `''` and `None`. -/
def isNotBlank : Option (List Char) → Bool
  | none => false
  | some t => !(t == [])

/-- `notNullText` (source lines 74-78).  `len(txt.split()) == 0` holds
exactly when every character is whitespace, which also covers the
earlier `txt == ''` test. -/
def notNullText : Option (List Char) → Bool
  | none => false
  | some t =>
    if t == "#null".data || t == "#Null".data || t == "#".data || t == [] ||
       t.all isPySpace
    then false else true

/-! ## Description splitting (source lines 249-261) -/

def brTag : List Char := ['<', 'b', 'r', '>']

def pCloseTag : List Char := ['<', '/', 'p', '>']

/-- The `paras` computation of the unit branch: split on `"<br>"` when
present; otherwise split on `"<p>"` and delete every `"</p>"` from each
piece; otherwise `splitlines()`. -/
def paras (desc_text : List Char) : List (List Char) :=
  if containsSub brTag desc_text then
    splitOnSub brTag desc_text
  else if containsSub pTag desc_text then
    (splitOnSub pTag desc_text).map (fun t => replaceSub pCloseTag t)
  else
    splitlines desc_text

/-! ## Document assembly (source lines 147-292) -/

deriving instance DecidableEq for Except

/-- Exceptions the script body can raise. -/
inductive PyErr where
  | nameError
  | indexError
  | stopIteration
deriving DecidableEq, Repr

/-- The two boolean command-line flags (source lines 154-162). -/
structure Config where
  useMapUnitForUnitLabl : Bool
  isLMU : Bool
deriving DecidableEq, Repr

/-- Script-level mutable state threaded through the row loop:
`lastParaWasHeading` (line 169) and the `abbrv` variable, which is
unbound (`none`) until a unit row first assigns it. -/
structure AsmState where
  lastParaWasHeading : Bool
  abbrv : Option (List Char)
deriving DecidableEq, Repr

/-- One row of the `DescriptionOfMapUnits` cursor, fields in the order of
source line 186: mapunit, label, name, age, description, paragraphstyle
(the hierarchykey is only logged).  `name` is modelled as a plain string:
the script applies `.lower`/`add_formatting` to it unconditionally. -/
structure Row where
  mapunit : Option (List Char)
  label : Option (List Char)
  name : List Char
  age : Option (List Char)
  description : Option (List Char)
  paragraphstyle : List Char
deriving DecidableEq, Repr

/-- One output paragraph: its docx style name and its runs. -/
structure Para where
  style : List Char
  runs : List Run
deriving DecidableEq, Repr

def emDash : Char := '—'

/-- `docx.Document.add_paragraph(text, style)` adds one default-styled
run when `text` is truthy and none otherwise. -/
def docxTextRuns : Option (List Char) → List Run
  | none => []
  | some t => if t == [] then [] else [⟨t, Style.Plain⟩]

/-- The title paragraph (source lines 193-196). -/
def titlePara (cfg : Config) : Para :=
  if cfg.isLMU then ⟨"DMU-Heading1".data, [⟨"LIST OF MAP UNITS".data, Style.Plain⟩]⟩
  else ⟨"DMU-Heading1".data, [⟨"DESCRIPTION OF MAP UNITS".data, Style.Plain⟩]⟩

/-- Python values taking part in the line-201 comparison
`first_row[2].lower in ['description of map units', 'list of map units']`:
the left operand is the *uncalled* bound method `str.lower` (note the
missing parentheses in the source), the right operands are strings. -/
inductive PyVal where
  | str : List Char → PyVal
  | int : Int → PyVal
  | boundMethod : List Char → PyVal
deriving DecidableEq, Repr

/-- Python `==` across these values: values of different types are
unequal, and a bound method never equals a string or an integer. -/
def pyEq : PyVal → PyVal → Bool
  | .str a, .str b => a == b
  | .int a, .int b => a == b
  | .boundMethod a, .boundMethod b => a == b
  | _, _ => false

/-- The line-201 membership test; `x in list` tests `pyEq` against each
element. -/
def titleCheck (nm : List Char) : Bool :=
  [PyVal.str "description of map units".data,
   PyVal.str "list of map units".data].any
    (fun t => pyEq (PyVal.boundMethod nm) t)

/-- The headnote paragraph emitted for the first row when its style is
exactly `DMUHeadnote` and the run is a full DMU (source lines 204-206). -/
def firstRowHeadnote (cfg : Config) (first : Row) : List Para :=
  if first.paragraphstyle == "DMUHeadnote".data && !cfg.isLMU then
    [⟨"DMUHeadnote".data, docxTextRuns first.description⟩]
  else []

/-- Loop body for one row (source lines 208-282).  Returns the updated
state and the paragraphs appended to the document, or the exception the
row raises.  Note, from the source: the heading branch does not touch
`lastParaWasHeading`; the unit branch may read an unassigned `abbrv`
(`NameError`); the age run's style name is an ignored extra argument of
`str.format`, so that run is default-styled; `lastParaWasHeading` is
reassigned only in the unit branch, from `row[5].find('Head')`. -/
def unitAbbrv0 (cfg : Config) (st : AsmState) (row : Row) : Option (List Char) :=
  if !cfg.useMapUnitForUnitLabl && notNullText row.label then row.label
  else if cfg.useMapUnitForUnitLabl && notNullText row.mapunit then row.mapunit
  else st.abbrv

/-- The description portion of the unit branch (source lines 245-274):
the em-dash run and the runs of the first piece, which join the unit
paragraph, and one `DMUParagraph`-styled paragraph per further piece.
The `[]` arm models the `paras[0]` `IndexError`. -/
def unitDescPart (cfg : Config) (row : Row) : Except PyErr (List Run × List Para) :=
  if isNotBlank row.description && !cfg.isLMU then
    match paras (row.description.getD []) with
    | [] => Except.error PyErr.indexError
    | p0 :: prest =>
      Except.ok (⟨[emDash], Style.Plain⟩ :: add_formatting p0,
        prest.map (fun p => ⟨"DMUParagraph".data, add_formatting p⟩))
  else Except.ok ([], [])

def processRow (cfg : Config) (st : AsmState) (row : Row) :
    Except PyErr (AsmState × List Para) :=
  if containsSub "DMU-Heading".data row.paragraphstyle then
    let header_pr : Para := ⟨row.paragraphstyle, add_formatting row.name⟩
    let hn : List Para :=
      if notNullText row.description then
        [⟨"DMUHeadnote".data, add_formatting (row.description.getD [])⟩]
      else []
    Except.ok (st, header_pr :: hn)
  else if containsSub "DMUUnit".data row.paragraphstyle then
    let style :=
      if st.lastParaWasHeading then "DMUUnit11stafterheading".data
      else row.paragraphstyle
    match unitAbbrv0 cfg st row with
    | none => Except.error PyErr.nameError
    | some a0 =>
      let a1 := a0 ++ ['\t']
      let abbrv :=
        if pySlice row.paragraphstyle (-1) (row.paragraphstyle.length : Int)
             ∈ [['4'], ['5']]
        then a1 ++ ['\t'] else a1
      let labelRuns : List Run := [⟨abbrv, Style.UnitLabelFont⟩]
      let nameRuns : List Run :=
        if isNotBlank (some row.name) then [⟨row.name, Style.NameAge⟩] else []
      let ageRuns : List Run :=
        if isNotBlank row.age then
          [⟨['('] ++ row.age.getD [] ++ [')'], Style.Plain⟩]
        else []
      match unitDescPart cfg row with
      | Except.error e => Except.error e
      | Except.ok (descRuns, contParas) =>
        let unitPara : Para := ⟨style, labelRuns ++ nameRuns ++ ageRuns ++ descRuns⟩
        let newLast := containsSub "Head".data row.paragraphstyle
        Except.ok (⟨newLast, some abbrv⟩, unitPara :: contParas)
  else
    Except.ok (st, [])

/-- The `for row in dmuRows` loop, collecting every appended paragraph. -/
def processRows (cfg : Config) : AsmState → List Row → Except PyErr (List Para)
  | _, [] => Except.ok []
  | st, r :: rs =>
    match processRow cfg st r with
    | Except.error e => Except.error e
    | Except.ok (st', ps) =>
      match processRows cfg st' rs with
      | Except.error e => Except.error e
      | Except.ok rest => Except.ok (ps ++ rest)

/-- The whole document-building pass (source lines 193-282) on the sorted
row list: title paragraph, first-row consumption (`dmuRows.next()`), the
always-false title test of line 201 with its conditional extra
`dmuRows.next()`, the first-row headnote check, then the row loop. -/
def assemble (cfg : Config) (rows : List Row) : Except PyErr (List Para) :=
  match rows with
  | [] => Except.error PyErr.stopIteration
  | first_row :: rest =>
    let afterTitle : Except PyErr (List Row) :=
      if titleCheck first_row.name then
        match rest with
        | [] => Except.error PyErr.stopIteration
        | _ :: rs => Except.ok rs
      else Except.ok rest
    match afterTitle with
    | Except.error e => Except.error e
    | Except.ok loopRows =>
      match processRows cfg ⟨false, none⟩ loopRows with
      | Except.error e => Except.error e
      | Except.ok body =>
        Except.ok (titlePara cfg :: (firstRowHeadnote cfg first_row ++ body))

/-- Source lines 286-288: `if sys.argv[4] == 3: print(Null)`.  The branch
body would evaluate the undefined name `Null` (a `NameError`); `argv4` is
the string `sys.argv[4]`. -/
def tailGuard (argv4 : List Char) : Except PyErr Unit :=
  if pyEq (PyVal.str argv4) (PyVal.int 3) then Except.error PyErr.nameError
  else Except.ok ()

/-! ## Sample configurations and rows used by the concrete theorems -/

/-- `UseMapUnitForUnitLabl = false`, full DMU (not LMU-only). -/
def cfg0 : Config := ⟨false, false⟩

def startState : AsmState := ⟨false, none⟩

def sampleHeading : Row := ⟨none, none, "AGE".data, none, none, "DMU-Heading1".data⟩

def sampleUnit : Row :=
  ⟨none, some "Qal".data, "Alluvium".data, some "Holocene".data, none, "DMUUnit1".data⟩

def sampleUnit2 : Row := ⟨none, some "Qaf".data, "Fan".data, none, none, "DMUUnit2".data⟩

/-- A unit row with neither abbreviation field populated (`label` holds
the `'#null'` placeholder, `mapunit` is `None`). -/
def sampleMissingAbbrv : Row := ⟨none, some "#null".data, "Till".data, none, none, "DMUUnit1".data⟩

def sampleHeadingNull : Row := ⟨none, none, "AGE".data, none, some "#null".data, "DMU-Heading1".data⟩

def sampleUnitNull : Row := ⟨none, some "Qal".data, [], none, some "#null".data, "DMUUnit1".data⟩

/-- Input text consisting of a single well-formed bold span. -/
def oneBold (pre mid post : List Char) : List Char :=
  pre ++ bTag ++ mid ++ ebTag ++ post

/-- No `<` character, hence no tag marker, occurs in the list. -/
abbrev ltFree (l : List Char) : Prop := ∀ c ∈ l, c ≠ '<'

/-! ## Helper lemmas -/

/-- Line 201 compares the uncalled `str.lower` method against strings:
no element of the placeholder list ever equals it. -/
theorem titleCheck_false (nm : List Char) : titleCheck nm = false := rfl

/-- `findFromAux` only answers indices at which the pattern occurs, at or
after its starting index. -/
theorem findFromAux_some (pat s : List Char) :
    ∀ fuel j j', findFromAux pat s j fuel = some j' →
      occursAt pat s j' = true ∧ j ≤ j' := by
  intro fuel
  induction fuel with
  | zero => intro j j' h; simp [findFromAux] at h
  | succ n ih =>
    intro j j' h
    by_cases hc : occursAt pat s j
    · simp [findFromAux, hc] at h
      exact h ▸ ⟨hc, Nat.le_refl j⟩
    · simp [findFromAux, hc] at h
      obtain ⟨h1, h2⟩ := ih (j + 1) j' h
      exact ⟨h1, by omega⟩

/-- `findFrom` only answers indices at which the pattern occurs. -/
theorem findFrom_some {pat s : List Char} {i j : Nat}
    (h : findFrom pat s i = some j) : occursAt pat s j = true :=
  (findFromAux_some pat s _ i j h).1

/-- An occurrence splits the suffix at its position. -/
theorem occursAt_decomp {pat s : List Char} {j : Nat}
    (h : occursAt pat s j = true) :
    s.drop j = pat ++ s.drop (j + pat.length) := by
  unfold occursAt at h
  rw [List.isPrefixOf_iff_prefix] at h
  obtain ⟨v, hv⟩ := h
  have h2 := congrArg (List.drop pat.length) hv
  rw [List.drop_left, List.drop_drop] at h2
  rw [← hv, h2]

/-- An occurrence of a non-empty pattern fits inside the text. -/
theorem occursAt_bound {pat s : List Char} {j : Nat}
    (h : occursAt pat s j = true) (hpat : pat ≠ []) :
    j + pat.length ≤ s.length := by
  have hd := occursAt_decomp h
  have hlen := congrArg List.length hd
  simp [List.length_drop, List.length_append] at hlen
  have hp : 0 < pat.length := List.length_pos.mpr hpat
  omega

/-- `split` never produces the empty list of pieces. -/
theorem splitOnSubFuel_ne_nil (pat : List Char) (fuel : Nat) (s : List Char) :
    splitOnSubFuel pat fuel s ≠ [] := by
  cases fuel with
  | zero => simp [splitOnSubFuel]
  | succ n =>
    cases h : findFrom pat s 0 with
    | none => simp [splitOnSubFuel, h]
    | some j => simp [splitOnSubFuel, h]

/-- With enough fuel, joining the split pieces with the separator
reconstructs the input: `splitOnSub` is a genuine splitting. -/
theorem joinWith_splitOnSubFuel (pat : List Char) (hpat : pat ≠ []) :
    ∀ fuel s, s.length < fuel →
      joinWith pat (splitOnSubFuel pat fuel s) = s := by
  intro fuel
  induction fuel with
  | zero => intro s hs; omega
  | succ n ih =>
    intro s hs
    cases h : findFrom pat s 0 with
    | none => simp [splitOnSubFuel, h, joinWith]
    | some j =>
      have hocc := findFrom_some h
      have hdec := occursAt_decomp hocc
      have hbound := occursAt_bound hocc hpat
      have hp : 0 < pat.length := List.length_pos.mpr hpat
      have htail := splitOnSubFuel_ne_nil pat n (s.drop (j + pat.length))
      obtain ⟨y, t, hyt⟩ := List.exists_cons_of_ne_nil htail
      have hlen2 : (s.drop (j + pat.length)).length < n := by
        simp [List.length_drop]
        omega
      calc joinWith pat (splitOnSubFuel pat (n + 1) s)
          = joinWith pat (s.take j :: splitOnSubFuel pat n (s.drop (j + pat.length))) := by
            simp [splitOnSubFuel, h]
        _ = s.take j ++ pat ++ joinWith pat (splitOnSubFuel pat n (s.drop (j + pat.length))) := by
            rw [hyt]; simp [joinWith]
        _ = s.take j ++ pat ++ s.drop (j + pat.length) := by rw [ih _ hlen2]
        _ = s.take j ++ s.drop j := by rw [hdec]; simp
        _ = s := List.take_append_drop j s

/-- Joining the split pieces with the separator reconstructs the input. -/
theorem joinWith_splitOnSub (pat : List Char) (hpat : pat ≠ []) (s : List Char) :
    joinWith pat (splitOnSub pat s) = s :=
  joinWith_splitOnSubFuel pat hpat (s.length + 1) s (Nat.lt_succ_self _)

/-- `splitlines` of a non-empty text is non-empty. -/
theorem splitlines_ne_nil {d : List Char} (hd : d ≠ []) : splitlines d ≠ [] := by
  obtain ⟨c, cs, rfl⟩ := List.exists_cons_of_ne_nil hd
  show splitlinesFuel ((c :: cs).length + 1) (c :: cs) ≠ []
  rw [List.length_cons]
  simp only [splitlinesFuel]
  split <;> simp

/-- The `paras` computation never yields an empty list for a non-empty
description. -/
theorem paras_ne_nil {d : List Char} (hd : d ≠ []) : paras d ≠ [] := by
  unfold paras
  split
  · exact splitOnSubFuel_ne_nil brTag _ d
  · split
    · simp [splitOnSubFuel_ne_nil pTag _ d, splitOnSub]
    · exact splitlines_ne_nil hd

/-- The description part of a unit row always succeeds: the `paras[0]`
access sits behind the `isNotBlank` guard, which forces a non-empty
description, and `paras` of a non-empty text is non-empty. -/
theorem unitDescPart_ok (cfg : Config) (row : Row) :
    ∃ v, unitDescPart cfg row = Except.ok v := by
  unfold unitDescPart
  split
  · rename_i hguard
    cases hp : paras (row.description.getD []) with
    | nil =>
      exfalso
      have h1 : isNotBlank row.description = true := by
        cases h2 : isNotBlank row.description with
        | false => rw [h2] at hguard; simp at hguard
        | true => rfl
      cases ho : row.description with
      | none => rw [ho] at h1; simp [isNotBlank] at h1
      | some t =>
        rw [ho] at h1 hp
        simp [isNotBlank] at h1
        simp at hp
        exact paras_ne_nil h1 hp
    | cons p0 prest => exact ⟨_, rfl⟩
  · exact ⟨_, rfl⟩

/-! ## Lemmas for the single-bold-span coverage theorem -/

theorem notMem_skip {u w : List Char} {a : Char} (hu : ∀ c ∈ u, c ≠ a) {j : Nat}
    (h : (u ++ w)[j]? = some a) : u.length ≤ j ∧ w[j - u.length]? = some a := by
  by_cases hj : j < u.length
  · rw [List.getElem?_append_left hj] at h
    exact absurd rfl (hu a (List.getElem?_mem h))
  · push_neg at hj
    rw [List.getElem?_append_right hj] at h
    exact ⟨hj, h⟩

theorem oneBold_lt_pos {pre mid post : List Char}
    (hpre : ltFree pre) (hmid : ltFree mid) (hpost : ltFree post) {j : Nat}
    (h : (oneBold pre mid post)[j]? = some '<') :
    j = pre.length ∨ j = pre.length + 3 + mid.length := by
  unfold oneBold at h
  simp only [List.append_assoc] at h
  obtain ⟨hj1, h⟩ := notMem_skip hpre h
  obtain ⟨m, hm⟩ : ∃ m, j - pre.length = m := ⟨_, rfl⟩
  rw [hm] at h
  simp only [bTag, ebTag, List.cons_append, List.nil_append] at h
  rcases m with _ | _ | _ | k
  · left; omega
  · rw [List.getElem?_cons_succ, List.getElem?_cons_zero] at h
    exact absurd (Option.some.inj h) (by decide)
  · rw [List.getElem?_cons_succ, List.getElem?_cons_succ, List.getElem?_cons_zero] at h
    exact absurd (Option.some.inj h) (by decide)
  · rw [List.getElem?_cons_succ, List.getElem?_cons_succ, List.getElem?_cons_succ] at h
    obtain ⟨hk1, h⟩ := notMem_skip hmid h
    obtain ⟨m2, hm2⟩ : ∃ m2, k - mid.length = m2 := ⟨_, rfl⟩
    rw [hm2] at h
    rcases m2 with _ | _ | _ | _ | k2
    · right; omega
    · rw [List.getElem?_cons_succ, List.getElem?_cons_zero] at h
      exact absurd (Option.some.inj h) (by decide)
    · rw [List.getElem?_cons_succ, List.getElem?_cons_succ, List.getElem?_cons_zero] at h
      exact absurd (Option.some.inj h) (by decide)
    · rw [List.getElem?_cons_succ, List.getElem?_cons_succ, List.getElem?_cons_succ,
        List.getElem?_cons_zero] at h
      exact absurd (Option.some.inj h) (by decide)
    · rw [List.getElem?_cons_succ, List.getElem?_cons_succ, List.getElem?_cons_succ,
        List.getElem?_cons_succ] at h
      exact absurd rfl (hpost '<' (List.getElem?_mem h))

theorem oneBold_at_P1 (pre mid post : List Char) :
    (oneBold pre mid post)[pre.length + 1]? = some 'b' := by
  unfold oneBold
  simp only [List.append_assoc]
  rw [List.getElem?_append_right (by omega)]
  have : pre.length + 1 - pre.length = 1 := by omega
  rw [this]
  simp [bTag]

theorem oneBold_at_Q1 (pre mid post : List Char) :
    (oneBold pre mid post)[pre.length + 3 + mid.length + 1]? = some '/' := by
  unfold oneBold
  rw [List.append_assoc ((pre ++ bTag) ++ mid) ebTag post]
  have hlen : ((pre ++ bTag) ++ mid).length = pre.length + 3 + mid.length := by
    simp [bTag]; omega
  rw [List.getElem?_append_right (by rw [hlen]; omega)]
  rw [hlen]
  have : pre.length + 3 + mid.length + 1 - (pre.length + 3 + mid.length) = 1 := by omega
  rw [this]
  simp [ebTag]

theorem occursAt_getElem {pat s : List Char} {j k : Nat} (h : occursAt pat s j = true)
    (hk : k < pat.length) : s[j + k]? = pat[k]? := by
  have hd := occursAt_decomp h
  have h2 := congrArg (fun l => l[k]?) hd
  simp only at h2
  rw [List.getElem?_drop] at h2
  rw [List.getElem?_append_left hk] at h2
  exact h2

theorem occursAt_oneBold_b {pre mid post : List Char}
    (hpre : ltFree pre) (hmid : ltFree mid) (hpost : ltFree post) (j : Nat) :
    occursAt bTag (oneBold pre mid post) j = (j == pre.length) := by
  by_cases hj : j = pre.length
  · subst hj
    simp only [beq_self_eq_true]
    unfold occursAt oneBold
    simp only [List.append_assoc]
    rw [List.drop_left]
    rw [List.isPrefixOf_iff_prefix]
    exact List.prefix_append bTag _
  · rw [beq_eq_false_iff_ne.mpr hj]
    by_contra hocc
    rw [Bool.not_eq_false] at hocc
    have h0 := occursAt_getElem hocc (show 0 < bTag.length by decide)
    rw [Nat.add_zero] at h0
    have h0' : (oneBold pre mid post)[j]? = some '<' := by
      rw [h0]; decide
    rcases oneBold_lt_pos hpre hmid hpost h0' with hP | hQ
    · exact hj hP
    · have h1 := occursAt_getElem hocc (show 1 < bTag.length by decide)
      subst hQ
      rw [oneBold_at_Q1] at h1
      exact absurd h1 (by decide)

theorem occursAt_oneBold_eb {pre mid post : List Char}
    (hpre : ltFree pre) (hmid : ltFree mid) (hpost : ltFree post) (j : Nat) :
    occursAt ebTag (oneBold pre mid post) j = (j == pre.length + 3 + mid.length) := by
  by_cases hj : j = pre.length + 3 + mid.length
  · subst hj
    simp only [beq_self_eq_true]
    unfold occursAt oneBold
    rw [List.append_assoc ((pre ++ bTag) ++ mid) ebTag post]
    have hlen : ((pre ++ bTag) ++ mid).length = pre.length + 3 + mid.length := by
      simp [bTag]; omega
    rw [← hlen, List.drop_left]
    rw [List.isPrefixOf_iff_prefix]
    exact List.prefix_append ebTag post
  · rw [beq_eq_false_iff_ne.mpr hj]
    by_contra hocc
    rw [Bool.not_eq_false] at hocc
    have h0 := occursAt_getElem hocc (show 0 < ebTag.length by decide)
    rw [Nat.add_zero] at h0
    have h0' : (oneBold pre mid post)[j]? = some '<' := by
      rw [h0]; decide
    rcases oneBold_lt_pos hpre hmid hpost h0' with hP | hQ
    · have h1 := occursAt_getElem hocc (show 1 < ebTag.length by decide)
      subst hP
      rw [oneBold_at_P1] at h1
      exact absurd h1 (by decide)
    · exact hj hQ

/-- Any other catalog opening marker starts `<c2` with `c2` neither `b`
nor `/`, and so occurs nowhere in a single-bold-span text. -/
theorem occursAt_oneBold_other {pre mid post : List Char}
    (hpre : ltFree pre) (hmid : ltFree mid) (hpost : ltFree post)
    {c2 : Char} {tl : List Char} (hb : c2 ≠ 'b') (hs : c2 ≠ '/') (j : Nat) :
    occursAt ('<' :: c2 :: tl) (oneBold pre mid post) j = false := by
  by_contra hocc
  rw [Bool.not_eq_false] at hocc
  have h0 := occursAt_getElem hocc (show 0 < ('<' :: c2 :: tl).length by simp)
  rw [Nat.add_zero] at h0
  have h0' : (oneBold pre mid post)[j]? = some '<' := by
    rw [h0]; rfl
  have h1 := occursAt_getElem hocc (show 1 < ('<' :: c2 :: tl).length by simp)
  have h1' : ('<' :: c2 :: tl)[1]? = some c2 := by simp
  rw [h1'] at h1
  rcases oneBold_lt_pos hpre hmid hpost h0' with hP | hQ
  · subst hP
    rw [oneBold_at_P1] at h1
    exact hb (Option.some.inj h1).symm
  · subst hQ
    rw [oneBold_at_Q1] at h1
    exact hs (Option.some.inj h1).symm

theorem findFromAux_eq_some {pat s : List Char} {P i0 : Nat}
    (hP : occursAt pat s P = true)
    (hlow : ∀ k, i0 ≤ k → k < P → occursAt pat s k = false) :
    ∀ fuel j, i0 ≤ j → j ≤ P → P < j + fuel → findFromAux pat s j fuel = some P := by
  intro fuel
  induction fuel with
  | zero => intro j _ _ h3; omega
  | succ n ih =>
    intro j h1 h2 h3
    by_cases hj : j = P
    · subst hj; simp [findFromAux, hP]
    · have hf : occursAt pat s j = false := hlow j h1 (by omega)
      simp only [findFromAux, hf, Bool.false_eq_true, if_false]
      exact ih (j + 1) (by omega) (by omega) (by omega)

theorem findFromAux_eq_none {pat s : List Char} (h : ∀ k, occursAt pat s k = false) :
    ∀ fuel j, findFromAux pat s j fuel = none := by
  intro fuel
  induction fuel with
  | zero => intro j; rfl
  | succ n ih =>
    intro j
    simp only [findFromAux, h j, Bool.false_eq_true, if_false]
    exact ih (j + 1)

theorem findFrom_eq_some {pat s : List Char} {P : Nat} (i : Nat)
    (hP : occursAt pat s P = true)
    (hlow : ∀ k, i ≤ k → k < P → occursAt pat s k = false)
    (hiP : i ≤ P) (hPs : P ≤ s.length) :
    findFrom pat s i = some P := by
  unfold findFrom
  exact findFromAux_eq_some hP hlow _ i (Nat.le_refl i) hiP (by omega)

theorem findFrom_eq_none {pat s : List Char} (i : Nat)
    (h : ∀ k, occursAt pat s k = false) : findFrom pat s i = none := by
  unfold findFrom
  exact findFromAux_eq_none h _ i

theorem filter_range_singleton {p : Nat → Bool} {P : Nat} :
    ∀ m, P < m → (∀ j, p j = (j == P)) → (List.range m).filter p = [P] := by
  intro m
  induction m with
  | zero => intro h _; omega
  | succ n ih =>
    intro hPm hp
    rw [List.range_succ, List.filter_append]
    by_cases hPn : P = n
    · subst hPn
      have h1 : (List.range P).filter p = [] := by
        rw [List.filter_eq_nil_iff]
        intro a ha
        rw [hp a]
        have hne : a ≠ P := Nat.ne_of_lt (List.mem_range.mp ha)
        simp [hne]
      rw [h1]
      simp [List.filter_cons, hp P]
    · have hPn' : P < n := by omega
      rw [ih hPn' hp]
      have hne : n ≠ P := fun hh => hPn hh.symm
      have h2 : List.filter p [n] = [] := by
        simp [List.filter_cons, hp n, hne]
      rw [h2, List.append_nil]

theorem oneBold_length (pre mid post : List Char) :
    (oneBold pre mid post).length = pre.length + mid.length + post.length + 7 := by
  simp [oneBold, bTag, ebTag]
  omega

theorem containsSub_oneBold_b {pre mid post : List Char}
    (hpre : ltFree pre) (hmid : ltFree mid) (hpost : ltFree post) :
    containsSub bTag (oneBold pre mid post) = true := by
  unfold containsSub
  rw [findFrom_eq_some 0
    (by rw [occursAt_oneBold_b hpre hmid hpost]; exact beq_self_eq_true _)
    (fun k _ hk => by
      rw [occursAt_oneBold_b hpre hmid hpost]
      exact beq_eq_false_iff_ne.mpr (Nat.ne_of_lt hk))
    (Nat.zero_le _)
    (by rw [oneBold_length]; omega)]
  rfl

theorem containsSub_oneBold_notag {pre mid post : List Char}
    (hpre : ltFree pre) (hmid : ltFree mid) (hpost : ltFree post)
    {c2 : Char} {tl : List Char} (hb : c2 ≠ 'b') (hs : c2 ≠ '/') :
    containsSub ('<' :: c2 :: tl) (oneBold pre mid post) = false := by
  unfold containsSub
  rw [findFrom_eq_none 0 (occursAt_oneBold_other hpre hmid hpost hb hs)]
  rfl

theorem allOccurrences_oneBold_b {pre mid post : List Char}
    (hpre : ltFree pre) (hmid : ltFree mid) (hpost : ltFree post) :
    allOccurrences bTag (oneBold pre mid post) = [pre.length] := by
  unfold allOccurrences
  exact filter_range_singleton _ (by rw [oneBold_length]; omega)
    (occursAt_oneBold_b hpre hmid hpost)

theorem findFrom_oneBold_eb {pre mid post : List Char}
    (hpre : ltFree pre) (hmid : ltFree mid) (hpost : ltFree post) :
    findFrom ebTag (oneBold pre mid post) pre.length =
      some (pre.length + 3 + mid.length) := by
  exact findFrom_eq_some pre.length
    (by rw [occursAt_oneBold_eb hpre hmid hpost]; exact beq_self_eq_true _)
    (fun k _ hk => by
      rw [occursAt_oneBold_eb hpre hmid hpost]
      exact beq_eq_false_iff_ne.mpr (Nat.ne_of_lt hk))
    (by omega)
    (by rw [oneBold_length]; omega)

theorem pyFind_oneBold_eb {pre mid post : List Char}
    (hpre : ltFree pre) (hmid : ltFree mid) (hpost : ltFree post) :
    pyFind ebTag (oneBold pre mid post) pre.length =
      ((pre.length + 3 + mid.length : Nat) : Int) := by
  unfold pyFind
  rw [findFrom_oneBold_eb hpre hmid hpost]

theorem pySlice_nat (s : List Char) (a b : Nat) (hb : b ≤ s.length) :
    pySlice s (a : Int) (b : Int) = (s.drop a).take (b - a) := by
  simp only [pySlice]
  have hna : ¬((a : Int) < 0) := by omega
  have hnb : ¬((b : Int) < 0) := by omega
  rw [if_neg hna, if_neg hnb]
  have hb2 : min (b : Int) ((s.length : Nat) : Int) = (b : Int) := by
    rw [min_eq_left]; omega
  rw [hb2]
  by_cases han : a ≤ s.length
  · have ha2 : min (a : Int) ((s.length : Nat) : Int) = (a : Int) := by
      rw [min_eq_left]; omega
    rw [ha2]
    have e1 : ((a : Int)).toNat = a := by omega
    have e2 : ((b : Int) - (a : Int)).toNat = b - a := by omega
    rw [e1, e2]
  · have ha2 : min (a : Int) ((s.length : Nat) : Int) = ((s.length : Nat) : Int) := by
      rw [min_eq_right]; omega
    rw [ha2]
    have e1 : (((s.length : Nat) : Int)).toNat = s.length := by omega
    rw [e1, List.drop_length, List.take_nil]
    rw [List.drop_eq_nil_of_le (by omega), List.take_nil]

theorem res_oneBold {pre mid post : List Char}
    (hpre : ltFree pre) (hmid : ltFree mid) (hpost : ltFree post) :
    startTags.filter (fun n => containsSub n (oneBold pre mid post)) = [bTag] := by
  have hb := containsSub_oneBold_b hpre hmid hpost
  have hp : containsSub pTag (oneBold pre mid post) = false :=
    containsSub_oneBold_notag hpre hmid hpost (by decide) (by decide)
  have hi : containsSub iTag (oneBold pre mid post) = false :=
    containsSub_oneBold_notag hpre hmid hpost (by decide) (by decide)
  have hg : containsSub gTag (oneBold pre mid post) = false :=
    containsSub_oneBold_notag hpre hmid hpost (by decide) (by decide)
  have hul : containsSub ulTag (oneBold pre mid post) = false :=
    containsSub_oneBold_notag hpre hmid hpost (by decide) (by decide)
  have hsup : containsSub supTag (oneBold pre mid post) = false :=
    containsSub_oneBold_notag hpre hmid hpost (by decide) (by decide)
  have hsub : containsSub subTag (oneBold pre mid post) = false :=
    containsSub_oneBold_notag hpre hmid hpost (by decide) (by decide)
  have hspan : containsSub spanStart (oneBold pre mid post) = false :=
    containsSub_oneBold_notag hpre hmid hpost (by decide) (by decide)
  simp only [startTags, List.filter_cons, List.filter_nil, hb, hp, hi, hg, hul,
    hsup, hsub, hspan, Bool.false_eq_true, if_false, if_true]

theorem oneBold_slice_before (pre mid post : List Char) :
    pySlice (oneBold pre mid post) 0 (pre.length : Int) = pre := by
  have h0 : (0 : Int) = ((0 : Nat) : Int) := rfl
  rw [h0, pySlice_nat _ 0 pre.length (by rw [oneBold_length]; omega)]
  rw [List.drop_zero, Nat.sub_zero]
  show List.take pre.length ((((pre ++ bTag) ++ mid) ++ ebTag) ++ post) = pre
  simp only [List.append_assoc]
  exact List.take_left pre _

theorem oneBold_slice_mid (pre mid post : List Char) :
    pySlice (oneBold pre mid post) ((pre.length : Int) + 3)
      ((pre.length : Int) + 3 + (mid.length : Int)) = mid := by
  have h1 : (pre.length : Int) + 3 = ((pre.length + 3 : Nat) : Int) := by push_cast; ring
  have h2 : (pre.length : Int) + 3 + (mid.length : Int) =
      ((pre.length + 3 + mid.length : Nat) : Int) := by push_cast; ring
  rw [h2, h1, pySlice_nat _ _ _ (by rw [oneBold_length]; omega)]
  have hs : pre.length + 3 + mid.length - (pre.length + 3) = mid.length := by omega
  rw [hs]
  have hd : List.drop (pre.length + 3) (oneBold pre mid post) = mid ++ (ebTag ++ post) := by
    have hl : pre.length + 3 = (pre ++ bTag).length := by simp [bTag]
    rw [hl]
    show List.drop (pre ++ bTag).length ((((pre ++ bTag) ++ mid) ++ ebTag) ++ post) = _
    rw [List.append_assoc ((pre ++ bTag) ++ mid) ebTag post,
      List.append_assoc (pre ++ bTag) mid (ebTag ++ post)]
    exact List.drop_left _ _
  rw [hd]
  exact List.take_left mid _

theorem oneBold_slice_post (pre mid post : List Char) :
    pySlice (oneBold pre mid post) ((pre.length : Int) + 3 + (mid.length : Int) + 4)
      (((oneBold pre mid post).length : Nat) : Int) = post := by
  have h1 : (pre.length : Int) + 3 + (mid.length : Int) + 4 =
      ((pre.length + 3 + mid.length + 4 : Nat) : Int) := by push_cast; ring
  rw [h1, pySlice_nat _ _ _ (Nat.le_refl _)]
  have hd : List.drop (pre.length + 3 + mid.length + 4) (oneBold pre mid post) = post := by
    have hl : pre.length + 3 + mid.length + 4 = (((pre ++ bTag) ++ mid) ++ ebTag).length := by
      simp [bTag, ebTag]; omega
    rw [hl]
    exact List.drop_left _ _
  rw [hd]
  have ht : (oneBold pre mid post).length - (pre.length + 3 + mid.length + 4) = post.length := by
    rw [oneBold_length]; omega
  rw [ht, List.take_length]

theorem add_formatting_oneBold {pre mid post : List Char}
    (hpre : ltFree pre) (hmid : ltFree mid) (hpost : ltFree post) :
    add_formatting (oneBold pre mid post) =
      (if pre.isEmpty then [] else [⟨pre, Style.Plain⟩]) ++
      ([⟨mid, Style.Bold⟩] ++
        (if post.isEmpty then [] else [⟨post, Style.Plain⟩])) := by
  simp only [add_formatting]
  rw [res_oneBold hpre hmid hpost]
  simp only [List.isEmpty_cons, Bool.false_eq_true, if_false]
  simp only [List.flatMap_cons, List.flatMap_nil, List.append_nil]
  rw [allOccurrences_oneBold_b hpre hmid hpost]
  simp only [List.map_cons, List.map_nil]
  rw [(by decide : endTagFor bTag = ebTag)]
  rw [pyFind_oneBold_eb hpre hmid hpost]
  simp only [sortByB, List.foldl, insertByB]
  rw [oneBold_slice_before]
  simp only [emitRuns, itemRuns]
  simp only [beq_self_eq_true, if_true]
  rw [(by decide : endTagFor bTag = ebTag)]
  rw [(by decide : bTag.length = 3), (by decide : ebTag.length = 4)]
  push_cast
  rw [oneBold_slice_mid, oneBold_slice_post]
  simp only [List.append_nil, List.append_assoc]

theorem concatRuns_append (l1 l2 : List Run) :
    concatRuns (l1 ++ l2) = concatRuns l1 ++ concatRuns l2 := by
  induction l1 with
  | nil => simp [concatRuns]
  | cons r rs ih => simp [concatRuns, ih]

/-! ## Claim theorems -/

/-- C1 counterexample: the claim asserts that for every input text the
emitted runs concatenate to the input with every recognized marker pair
removed.  For `"<g>x</g>"` — a well-formed pair of the catalog tag `<g>`
— the tag dispatch of `add_formatting` has no branch for `<g>`, so no
run is emitted at all: the concatenation is empty, not the stripped text
`"x"`. -/
theorem C1_counterexample :
    add_formatting ("<g>x</g>".data) = [] ∧
    concatRuns (add_formatting ("<g>x</g>".data)) ≠ "x".data := by
  decide

/-- C1 as amended: coverage holds for texts whose only marker is one
well-formed styled pair.  For any text `pre ++ "<b>" ++ mid ++ "</b>" ++
post` whose three free parts contain no `<` (hence no marker),
concatenating the emitted runs yields exactly the input with the two
markers removed, and no marker (no `<` at all) appears in any run's
text.  In general the claim fails for the structural tags `<p>`, `<g>`,
`<ul>` (their content is dropped, see the counterexample) and for nested
tags. -/
theorem C1_coverage_single_bold (pre mid post : List Char)
    (hpre : ltFree pre) (hmid : ltFree mid) (hpost : ltFree post) :
    concatRuns (add_formatting (oneBold pre mid post)) = pre ++ mid ++ post ∧
    ∀ r ∈ add_formatting (oneBold pre mid post), ltFree r.text := by
  rw [add_formatting_oneBold hpre hmid hpost]
  constructor
  · rw [concatRuns_append, concatRuns_append]
    have e1 : concatRuns (if pre.isEmpty then [] else [⟨pre, Style.Plain⟩]) = pre := by
      split
      · rename_i h; rw [List.isEmpty_iff] at h; rw [h]; rfl
      · simp [concatRuns]
    have e3 : concatRuns (if post.isEmpty then [] else [⟨post, Style.Plain⟩]) = post := by
      split
      · rename_i h; rw [List.isEmpty_iff] at h; rw [h]; rfl
      · simp [concatRuns]
    rw [e1, e3]
    simp [concatRuns]
  · intro r hr
    rcases List.mem_append.mp hr with h | h
    · split at h
      · simp at h
      · rw [List.mem_singleton] at h; subst h; exact hpre
    · rcases List.mem_append.mp h with h | h
      · rw [List.mem_singleton] at h; subst h; exact hmid
      · split at h
        · simp at h
        · rw [List.mem_singleton] at h; subst h; exact hpost

/-- C1 witness: `"q <b>x</b> y"` is covered exactly. -/
theorem C1_witness :
    concatRuns (add_formatting (oneBold "q ".data "x".data " y".data)) =
      "q ".data ++ "x".data ++ " y".data :=
  (C1_coverage_single_bold "q ".data "x".data " y".data
    (by decide) (by decide) (by decide)).1

/-- C2: for the input `"<b>hello"` — an opening bold marker with no
closing marker — the claim says `add_formatting` discards the span and
emits a single plain run holding the literal text `"<b>hello"`.  The
code instead stores `end = ptext.find('</b>') = -1`, slices with it, and
emits a bold run `"hell"` (the content minus its last character) followed
by a plain run `"hello"`: content is duplicated and mangled and the
literal marker never appears. -/
theorem C2_unterminated_bold_mangled :
    add_formatting ("<b>hello".data) =
      [⟨"hell".data, Style.Bold⟩, ⟨"hello".data, Style.Plain⟩] ∧
    concatRuns (add_formatting ("<b>hello".data)) ≠ "<b>hello".data := by
  decide

/-- C3: the claim says a unit row right after a heading row is emitted
with style `DMUUnit11stafterheading`.  In the code the heading branch
never sets `lastParaWasHeading` (the assignment sits inside the unit
branch, lines 276-279), so after `sampleHeading` the unit paragraph
keeps its own style `DMUUnit1`; the unit-after-unit half of the claim
does hold (each unit keeps its own style). -/
theorem C3_after_heading_style_never_applied :
    processRows cfg0 startState [sampleHeading, sampleUnit] =
      Except.ok
        [⟨"DMU-Heading1".data, [⟨"AGE".data, Style.Plain⟩]⟩,
         ⟨"DMUUnit1".data,
          [⟨"Qal\t".data, Style.UnitLabelFont⟩,
           ⟨"Alluvium".data, Style.NameAge⟩,
           ⟨"(Holocene)".data, Style.Plain⟩]⟩] ∧
    "DMUUnit1".data ≠ "DMUUnit11stafterheading".data ∧
    processRows cfg0 startState [sampleUnit, sampleUnit2] =
      Except.ok
        [⟨"DMUUnit1".data,
          [⟨"Qal\t".data, Style.UnitLabelFont⟩,
           ⟨"Alluvium".data, Style.NameAge⟩,
           ⟨"(Holocene)".data, Style.Plain⟩]⟩,
         ⟨"DMUUnit2".data,
          [⟨"Qaf\t".data, Style.UnitLabelFont⟩,
           ⟨"Fan".data, Style.NameAge⟩]⟩] := by
  decide

/-- C4 counterexample: the claim says a first record that is not a title
placeholder is processed through the ordinary streaming dispatch and its
paragraph appears in the document.  For the stream consisting of the
single ordinary unit record `sampleUnit` (name `"Alluvium"`), the
document contains only the externally supplied title paragraph: no
paragraph with the record's style `DMUUnit1` is ever emitted. -/
theorem C4_counterexample :
    assemble cfg0 [sampleUnit] = Except.ok [titlePara cfg0] ∧
    ∀ p ∈ [titlePara cfg0], p.style ≠ "DMUUnit1".data := by
  decide

/-- C4 as amended: the first record is consumed before the loop and is
never dispatched through it; it contributes at most a headnote paragraph
(exactly when its style tag equals `DMUHeadnote` and the run is not
list-only).  The title-placeholder comparison of line 201 compares the
uncalled `str.lower` method object against the placeholder strings, so
it is false for every name and no further record is skipped either. -/
theorem C4_first_row_never_dispatched :
    (∀ nm : List Char, titleCheck nm = false) ∧
    (∀ (cfg : Config) (first : Row) (rest : List Row),
      assemble cfg (first :: rest) =
        match processRows cfg startState rest with
        | Except.error e => Except.error e
        | Except.ok body =>
          Except.ok (titlePara cfg :: (firstRowHeadnote cfg first ++ body))) :=
  ⟨titleCheck_false, fun _ _ _ => rfl⟩

/-- C5: for a unit row whose two abbreviation fields are both
unpopulated, the claim requires an empty label run or a warning-skip and
forbids a control-flow interruption.  The code leaves `abbrv` unassigned
and then evaluates `'{}\t'.format(abbrv)`: as the first unit row this
raises `NameError` (aborting every remaining row), and after an earlier
unit row it silently reuses that row's already-tabbed label, fabricating
the label `"Qal\t\t"` from foreign data. -/
theorem C5_missing_abbreviation_raises_or_reuses :
    processRows cfg0 startState [sampleMissingAbbrv] = Except.error PyErr.nameError ∧
    processRow cfg0 ⟨false, some "Qal\t".data⟩ sampleMissingAbbrv =
      Except.ok (⟨false, some "Qal\t\t".data⟩,
        [⟨"DMUUnit1".data,
          [⟨"Qal\t\t".data, Style.UnitLabelFont⟩,
           ⟨"Till".data, Style.NameAge⟩]⟩]) := by
  decide

/-- C6: description splitting follows the fixed first-match-wins
priority of lines 251-261: a text containing `"<br>"` is split on that
marker only (and the split is genuine: rejoining the pieces with the
marker reconstructs the text); otherwise a text containing `"<p>"` is
split on `"<p>"` with every `"</p>"` deleted from each piece; otherwise
the text is split on raw line-break characters. -/
theorem C6_split_priority (desc : List Char) :
    (containsSub brTag desc = true →
      paras desc = splitOnSub brTag desc ∧
      joinWith brTag (paras desc) = desc) ∧
    (containsSub brTag desc = false → containsSub pTag desc = true →
      paras desc = (splitOnSub pTag desc).map (fun t => replaceSub pCloseTag t)) ∧
    (containsSub brTag desc = false → containsSub pTag desc = false →
      paras desc = splitlines desc) := by
  refine ⟨fun h1 => ?_, fun h1 h2 => ?_, fun h1 h2 => ?_⟩
  · have he : paras desc = splitOnSub brTag desc := by simp [paras, h1]
    exact ⟨he, by rw [he]; exact joinWith_splitOnSub brTag (by decide) desc⟩
  · simp [paras, h1, h2]
  · simp [paras, h1, h2]

/-- C6 witness: `"a<br>b"` contains the line-break marker, is split on it
alone, and rejoining restores the text. -/
theorem C6_witness :
    paras ("a<br>b".data) = splitOnSub brTag ("a<br>b".data) ∧
    joinWith brTag (paras ("a<br>b".data)) = "a<br>b".data :=
  (C6_split_priority ("a<br>b".data)).1 (by decide)

/-- C7 counterexample: the claim asserts the splitting step returns a
non-empty list for every description text, but Python
`''.splitlines()` is the empty list, so `paras` applied to the empty
description yields no paragraphs at all. -/
theorem C7_counterexample : paras [] = [] := by
  decide

/-- C7 as amended: for every *non-empty* description text the splitting
step returns a non-empty list, and a non-empty text containing no break
marker yields exactly the one paragraph equal to the text; the unit
branch reaches `paras` only behind the `isNotBlank` guard, so the
`paras[0]` access never raises: `processRow` never returns an
`IndexError` for any configuration, state, and row. -/
theorem C7_split_nonempty :
    (∀ d : List Char, d ≠ [] → paras d ≠ []) ∧
    (∀ d : List Char, d ≠ [] →
      containsSub brTag d = false → containsSub pTag d = false →
      d.all (fun c => !isLineBreakChar c) = true →
      paras d = [d]) ∧
    (∀ (cfg : Config) (st : AsmState) (row : Row),
      processRow cfg st row ≠ Except.error PyErr.indexError) := by
  refine ⟨fun d hd => paras_ne_nil hd, fun d hd h1 h2 h3 => ?_, ?_⟩
  · have hline : d.takeWhile (fun c => !isLineBreakChar c) = d :=
      List.takeWhile_eq_self_iff.mpr (by
        intro c hc
        exact (List.all_eq_true.mp h3) c hc)
    obtain ⟨c, cs, rfl⟩ := List.exists_cons_of_ne_nil hd
    show paras (c :: cs) = [c :: cs]
    rw [paras]
    simp only [h1, h2, if_false]
    show splitlinesFuel ((c :: cs).length + 1) (c :: cs) = [c :: cs]
    rw [List.length_cons]
    simp only [splitlinesFuel, hline, List.drop_length]
  · intro cfg st row
    unfold processRow
    split
    · simp
    · split
      · cases ha : unitAbbrv0 cfg st row with
        | none => simp
        | some a0 =>
          obtain ⟨⟨descRuns, contParas⟩, hv⟩ := unitDescPart_ok cfg row
          rw [hv]
          simp
      · simp

/-- C7 witness: a marker-free non-empty text yields exactly one
paragraph. -/
theorem C7_witness : paras ("abc".data) = ["abc".data] :=
  C7_split_nonempty.2.1 ("abc".data) (by decide) (by decide) (by decide) (by decide)

/-- C8: the claim says the age run carries the name/age character style
`DMUUnitNameAgetypestyle` like the name run before it.  In the source the
style name is a second argument of `str.format` (line 242), which
ignores it, so `add_run` is called with the text only and the age run is
default-styled (`Plain`), unlike the name run (`NameAge`). -/
theorem C8_age_run_default_styled :
    processRows cfg0 startState [sampleUnit] =
      Except.ok
        [⟨"DMUUnit1".data,
          [⟨"Qal\t".data, Style.UnitLabelFont⟩,
           ⟨"Alluvium".data, Style.NameAge⟩,
           ⟨"(Holocene)".data, Style.Plain⟩]⟩] ∧
    Style.Plain ≠ Style.NameAge := by
  decide

/-- C9: null-sentinel handling is asymmetric.  `notNullText` rejects
`'#null'`, `'#Null'`, `'#'`, `None`, `''` and whitespace-only text, so a
heading whose description is such a sentinel emits no headnote
paragraph; `isNotBlank` rejects only `''` and `None`, so a unit whose
description is the literal `'#null'` is treated as described and gets an
em-dash run followed by the literal sentinel text. -/
theorem C9_null_sentinel_asymmetry :
    (∀ t ∈ ["#null".data, "#Null".data, "#".data, ([] : List Char)],
      notNullText (some t) = false) ∧
    notNullText none = false ∧
    (∀ t : List Char, t.all isPySpace = true → notNullText (some t) = false) ∧
    (∀ t : List Char, t ≠ [] → isNotBlank (some t) = true) ∧
    processRow cfg0 startState sampleHeadingNull =
      Except.ok (startState, [⟨"DMU-Heading1".data, [⟨"AGE".data, Style.Plain⟩]⟩]) ∧
    processRow cfg0 startState sampleUnitNull =
      Except.ok (⟨false, some "Qal\t".data⟩,
        [⟨"DMUUnit1".data,
          [⟨"Qal\t".data, Style.UnitLabelFont⟩,
           ⟨[emDash], Style.Plain⟩,
           ⟨"#null".data, Style.Plain⟩]⟩]) := by
  refine ⟨by decide, rfl, ?_, ?_, by decide, by decide⟩
  · intro t ht
    simp [notNullText, ht]
  · intro t ht
    simp [isNotBlank, ht]

/-- C9 witness: the sentinel `'#null'` as a heading description is
treated as absent. -/
theorem C9_witness : notNullText (some "#null".data) = false :=
  C9_null_sentinel_asymmetry.1 "#null".data (by decide)

/-- C10: `sys.argv` entries are strings and Python `==` between a string
and the integer `3` is `False`, so the `if sys.argv[4] == 3` branch of
lines 286-288 is never taken and the undefined name `Null` inside it is
never evaluated: the tail of the script succeeds for every argument
string. -/
theorem C10_argv_int_guard_unreachable :
    ∀ argv4 : List Char, tailGuard argv4 = Except.ok () :=
  fun _ => rfl

end GeMS
